import Mathlib

/-!
Shallow embedding of `pex/pep425.py` (PEP 425 tag handling for pex).

Python strings are modeled as Lean `String`; Python ints as `Int`
(interpreter version components, which are nonnegative, as `Nat`);
Python generators as the `List` of values they yield; a Python function
that can raise as an `Option`-returning function, where `none` stands for
the single error kind of this module, the `ValueError`
`invalid macosx tag: ...` (spec name: `InvalidPlatformTag`).
-/

namespace PEP425Spec

/-- Python `range(start, stop, -1)` over ints: `start, start-1, ..., stop+1`. -/
def pyRangeDown (start stop : Int) : List Int :=
  (List.range (start - stop).toNat).map (fun (i : Nat) => start - (i : Int))

/-- Split off everything before the first occurrence of `sep`; `none` when
`sep` does not occur. -/
def splitFirst (sep : Char) : List Char → Option (List Char × List Char)
  | [] => none
  | c :: cs =>
    if c = sep then some ([], cs)
    else
      match splitFirst sep cs with
      | none => none
      | some (pre, post) => some (c :: pre, post)

/-- Python `str.split(sep, maxsplit)` on a single-character separator,
working on the character list: at most `limit` splits are performed. -/
def pySplitAux (sep : Char) (limit : Nat) (s : List Char) : List (List Char) :=
  match limit with
  | 0 => [s]
  | Nat.succ n =>
    match splitFirst sep s with
    | none => [s]
    | some (pre, post) => pre :: pySplitAux sep n post

/-- Python `s.split(sep, limit)` for a one-character separator `sep`. -/
def pySplit (s : String) (sep : Char) (limit : Nat) : List String :=
  (pySplitAux sep limit s.data).map String.mk

/-- ASCII whitespace stripped by Python `int(str)`. -/
def isPySpace (c : Char) : Bool :=
  c = ' ' ∨ c = '\t' ∨ c = '\n' ∨ c = '\r' ∨ c = '\x0b' ∨ c = '\x0c'

/-- Numeric value of a list of decimal digit characters. -/
def digitsVal (cs : List Char) : Nat :=
  cs.foldl (fun a c => 10 * a + (c.toNat - 48)) 0

/-- Python `int(str)` on a character list: strips surrounding whitespace,
accepts one optional sign followed by a nonempty run of decimal digits,
and fails (`ValueError`) otherwise.  Python additionally accepts single
underscores between digits, but every string this module passes to `int`
is a piece of an underscore-split, so it never contains an underscore. -/
def pyIntCore : List Char → Option Int
  | [] => none
  | c :: rest =>
    if c = '-' then
      if rest ≠ [] ∧ rest.all Char.isDigit then some (-(digitsVal rest : Int)) else none
    else if c = '+' then
      if rest ≠ [] ∧ rest.all Char.isDigit then some (digitsVal rest : Int) else none
    else if (c :: rest).all Char.isDigit then some (digitsVal (c :: rest) : Int)
    else none

def pyIntChars (cs : List Char) : Option Int :=
  pyIntCore ((cs.dropWhile isPySpace).reverse.dropWhile isPySpace).reverse

/-- Python `int(s)` for a string `s`. -/
def pyInt (s : String) : Option Int := pyIntChars s.data

/-- Decimal digit characters of a natural number, most significant first.
Structural recursion on a fuel argument (any fuel above the digit count of
`n` gives the full representation; `natStr` passes `n + 1`). -/
def natStrAux (fuel n : Nat) : List Char :=
  match fuel with
  | 0 => []
  | Nat.succ f =>
    if n < 10 then [Char.ofNat (48 + n)]
    else natStrAux f (n / 10) ++ [Char.ofNat (48 + n % 10)]

/-- Python `str(n)` for a nonnegative int `n`. -/
def natStr (n : Nat) : String := String.mk (natStrAux (n + 1) n)

/-- Python `startswith` / tuple comparison helpers. -/
def pyStartsWith (s pre : String) : Bool := pre.data.isPrefixOf s.data

/-- Python lexicographic `<` on int pairs. -/
def verLt (a b : Int × Int) : Prop := a.1 < b.1 ∨ (a.1 = b.1 ∧ a.2 < b.2)

/-- Python lexicographic `<=` on int pairs. -/
def verLe (a b : Int × Int) : Prop := verLt a b ∨ a = b

instance (a b : Int × Int) : Decidable (verLt a b) := by unfold verLt; infer_instance

instance (a b : Int × Int) : Decidable (verLe a b) := by unfold verLe; infer_instance

/-- Source: `PEP425Extras.is_macosx_platform`: `platform.startswith('macosx')`. -/
def is_macosx_platform (platform : String) : Bool := pyStartsWith platform "macosx"

/-- Source: `PEP425Extras.parse_macosx_tag`.  Returns `(major, minor, arch)`;
`none` models raising `invalid macosx tag` (`InvalidPlatformTag`).  The
source splits on `'_'` with `maxsplit=3`, requires at least 3 segments with
the first exactly `macosx`, parses segment 1 as the major int, then tries
segment 2 as the minor int: on `ValueError` the minor defaults to `0` and
the arch is the rejoin of segments 2.. ; on success the arch is segment 3,
whose absence (`IndexError`) is invalid. -/
def parse_macosx_tag (platform_tag : String) : Option (Int × Int × String) :=
  if ¬ is_macosx_platform platform_tag then none
  else
    let segments := pySplit platform_tag '_' 3
    if segments.length < 3 then none
    else if segments.getD 0 "" ≠ "macosx" then none
    else
      match pyInt (segments.getD 1 "") with
      | none => none
      | some major =>
        match pyInt (segments.getD 2 "") with
        | some minor =>
          match segments[3]? with
          | some arch => some (major, minor, arch)
          | none => none
        | none => some (major, 0, String.intercalate "_" (segments.drop 2))

/-- Source: `PEP425Extras._mac_binary_formats`.  The early `return []` of the
source (version outside the window of an arch) is modeled by `none` in the
intermediate `base`; only a non-early-returned `formats` list receives the
trailing `universal2` / `universal` appends. -/
def _mac_binary_formats (version_tuple : Int × Int) (cpu_arch : String) : List String :=
  let base : Option (List String) :=
    if cpu_arch = "x86_64" then
      if verLt version_tuple (10, 4) then none
      else some [cpu_arch, "intel", "fat64", "fat32"]
    else if cpu_arch = "i386" then
      if verLt version_tuple (10, 4) then none
      else some [cpu_arch, "intel", "fat32", "fat"]
    else if cpu_arch = "ppc64" then
      if verLt (10, 5) version_tuple ∨ verLt version_tuple (10, 4) then none
      else some [cpu_arch, "fat64"]
    else if cpu_arch = "ppc" then
      if verLt (10, 6) version_tuple then none
      else some [cpu_arch, "fat32", "fat"]
    else some [cpu_arch]
  match base with
  | none => []
  | some formats =>
    (formats ++ (if cpu_arch ∈ (["arm64", "x86_64"] : List String) then ["universal2"] else []))
      ++ (if cpu_arch ∈ (["x86_64", "i386", "ppc64", "ppc", "intel"] : List String)
          then ["universal"] else [])

/-- Source: `PEP425Extras.iter_compatible_osx_platforms`.  The three `if`
blocks of the source generator are the three list parts, concatenated in
yield order; `none` models the uncaught `InvalidPlatformTag` from parsing. -/
def iter_compatible_osx_platforms (supported_platform : String) : Option (List String) :=
  match parse_macosx_tag supported_platform with
  | none => none
  | some (major, minor, arch) =>
    let version : Int × Int := (major, minor)
    let part1 :=
      if verLe (10, 0) version ∧ verLt version (11, 0) then
        (pyRangeDown version.2 (-1)).flatMap (fun minor_version =>
          (_mac_binary_formats (10, minor_version) arch).map (fun binary_format =>
            "macosx_10_" ++ toString minor_version ++ "_" ++ binary_format))
      else []
    let part2 :=
      if verLe (11, 0) version then
        (pyRangeDown version.1 10).flatMap (fun major_version =>
          (_mac_binary_formats (major_version, 0) arch).map (fun binary_format =>
            "macosx_" ++ toString major_version ++ "_0_" ++ binary_format))
      else []
    let part3 :=
      if verLe (11, 0) version then
        if arch = "x86_64" then
          (pyRangeDown 16 3).flatMap (fun minor_version =>
            (_mac_binary_formats (10, minor_version) arch).map (fun binary_format =>
              "macosx_10_" ++ toString minor_version ++ "_" ++ binary_format))
        else
          (pyRangeDown 16 3).map (fun minor_version =>
            "macosx_10_" ++ toString minor_version ++ "_universal2")
      else []
    some (part1 ++ part2 ++ part3)

/-- Source: `PEP425Extras.platform_iterator`: macOS tags expand through
`iter_compatible_osx_platforms`; any other tag is yielded unchanged. -/
def platform_iterator (platform : String) : Option (List String) :=
  if is_macosx_platform platform then iter_compatible_osx_platforms platform
  else some [platform]

/-- One supported tag: `(pyver_tag, abi_tag, platform_tag)`. -/
abbrev TagTuple := String × String × String

/-- Source: `PEP425.INTERPRETER_TAGS`. -/
def INTERPRETER_TAGS : List (String × String) :=
  [("CPython", "cp"), ("Jython", "jy"), ("PyPy", "pp"), ("IronPython", "ip")]

/-- Source: `PEP425.get_implementation_tag`: dict `.get`, `none` for unknown. -/
def get_implementation_tag (interpreter_subversion : String) : Option String :=
  (INTERPRETER_TAGS.find? (fun kv => kv.1 = interpreter_subversion)).map (fun kv => kv.2)

/-- Source: `PEP425.get_version_tag`: `''.join(map(str, interpreter_version[:2]))`. -/
def get_version_tag (interpreter_version : List Nat) : String :=
  String.join ((interpreter_version.take 2).map natStr)

/-- Source: `PEP425.translate_platform_to_tag`: replace `.` and `-` by `_`. -/
def translate_platform_to_tag (platform : String) : String :=
  String.mk (platform.data.map (fun c => if c = '.' then '_' else if c = '-' then '_' else c))

/-- Source: the `abis` list built at the top of `PEP425._iter_supported_tags`:
only CPython with a version string starting in `2` or `3` gets specific ABIs,
and `abi3` is appended only for `3`. -/
def build_abis (impl version : String) : List String :=
  if impl = "cp" ∧ (pyStartsWith version "2" ∨ pyStartsWith version "3") then
    ["cp" ++ version,
     "cp" ++ version ++ "dmu", "cp" ++ version ++ "dm", "cp" ++ version ++ "du",
     "cp" ++ version ++ "d",
     "cp" ++ version ++ "mu", "cp" ++ version ++ "m",
     "cp" ++ version ++ "u"]
    ++ (if pyStartsWith version "3" then ["abi3"] else [])
  else []

/-- Source: the `minor_versions` list of `PEP425._iter_supported_tags`:
`'%d%d' % (major_version, minor)` for `minor` in `range(start, -1, -1)`. -/
def minor_version_strings (major_version start : Int) : List String :=
  (pyRangeDown start (-1)).map (fun minor => toString major_version ++ toString minor)

/-- Source: `PEP425._iter_supported_tags`.  `int(version[0])` and
`int(version[1:])` are the two `pyInt` calls (Python raises `IndexError`
on `version[0]` for an empty string and `ValueError` for non-numeric
text; both collapse to `none`).  The generator's yield order is the
interpreter-specific block followed by the generic block. -/
def _iter_supported_tags (impl version platform : String) : Option (List TagTuple) :=
  match pyInt (String.mk (version.data.take 1)) with
  | none => none
  | some major_version =>
    match pyInt (String.mk (version.data.drop 1)) with
    | none => none
    | some startMinor =>
      match platform_iterator (translate_platform_to_tag platform) with
      | none => none
      | some platforms =>
        some
          (platforms.flatMap (fun p =>
              (build_abis impl version).map (fun abi => (impl ++ version, abi, p)))
            ++ (platforms ++ ["any"]).flatMap (fun p =>
                 (["py", impl]).flatMap (fun i =>
                   (i ++ toString major_version, "none", p)
                     :: (minor_version_strings major_version startMinor).map
                          (fun mv => (i ++ mv, "none", p)))))

/-- Data model: the caller-supplied interpreter identity (implementation
name and version components, the latter nonnegative ints). -/
structure PythonIdentity where
  interpreter : String
  version : List Nat

/-- Python `'%s' % x` for `x` an optional string: `None` prints as `"None"`,
which is how `impl_tag = None` flows through the format strings below. -/
def pyFormatOptStr (s : Option String) : String :=
  match s with
  | some t => t
  | none => "None"

/-- Source: `PEP425.iter_supported_tags`: looks up the implementation tag and
the two-component version tag, then delegates to `_iter_supported_tags`. -/
def iter_supported_tags (identity : PythonIdentity) (platform : String) :
    Option (List TagTuple) :=
  _iter_supported_tags (pyFormatOptStr (get_implementation_tag identity.interpreter))
    (get_version_tag identity.version) platform

/-- Concrete supported-tag list for CPython 2.6 on `linux_x86_64`, used to
instantiate the ordering contract below. -/
def cp26_tags : List TagTuple :=
  (_iter_supported_tags "cp" "26" "linux_x86_64").getD []

end PEP425Spec

namespace PEP425Spec

/-- Decimal digit lists produced by `natStrAux` are nonempty and all-digit
whenever the fuel exceeds the number. -/
theorem natStrAux_ne_nil_all_digits :
    ∀ (fuel n : Nat), n < fuel →
      natStrAux fuel n ≠ [] ∧ ∀ c ∈ natStrAux fuel n, c.isDigit = true := by
  intro fuel
  induction fuel with
  | zero => intro n hn; omega
  | succ f ih =>
    intro n _
    unfold natStrAux
    by_cases h10 : n < 10
    · rw [if_pos h10]
      refine ⟨by simp, ?_⟩
      intro c hc
      simp only [List.mem_singleton] at hc
      subst hc
      interval_cases n <;> decide
    · rw [if_neg h10]
      have hdiv : n / 10 < f := by
        have h1 : n / 10 < n := Nat.div_lt_self (by omega) (by omega)
        have h2 : n / 10 ≤ f := by omega
        omega
      obtain ⟨hne, hall⟩ := ih (n / 10) hdiv
      refine ⟨by simp [hne], ?_⟩
      intro c hc
      rw [List.mem_append] at hc
      rcases hc with hc | hc
      · exact hall c hc
      · simp only [List.mem_singleton] at hc
        subst hc
        have h9 : n % 10 < 10 := Nat.mod_lt _ (by omega)
        set m := n % 10 with hm
        interval_cases m <;> decide

/-- Digit characters are not Python `int` whitespace. -/
theorem isDigit_not_pySpace (c : Char) (h : c.isDigit = true) : isPySpace c = false := by
  unfold isPySpace
  simp only [decide_eq_false_iff_not]
  rintro (rfl | rfl | rfl | rfl | rfl | rfl) <;> simp at h

/-- `dropWhile` is the identity on a list none of whose elements satisfy the
predicate. -/
theorem dropWhile_eq_self_of_all (p : Char → Bool) (l : List Char)
    (h : ∀ c ∈ l, p c = false) : l.dropWhile p = l := by
  cases l with
  | nil => rfl
  | cons a t => simp [List.dropWhile, h a (by simp)]

/-- Python `int` succeeds on every nonempty all-digit character list. -/
theorem pyIntChars_of_digits (cs : List Char) (hne : cs ≠ [])
    (hd : ∀ c ∈ cs, c.isDigit = true) : ∃ k, pyIntChars cs = some k := by
  have hs : ∀ c ∈ cs, isPySpace c = false := fun c hc => isDigit_not_pySpace c (hd c hc)
  have h1 : cs.dropWhile isPySpace = cs := dropWhile_eq_self_of_all _ _ hs
  have h2 : cs.reverse.dropWhile isPySpace = cs.reverse :=
    dropWhile_eq_self_of_all _ _ (fun c hc => hs c (List.mem_reverse.mp hc))
  unfold pyIntChars
  rw [h1, h2, List.reverse_reverse]
  cases cs with
  | nil => exact absurd rfl hne
  | cons c rest =>
    have hc : c.isDigit = true := hd c (by simp)
    have hminus : ¬ (c = '-') := by rintro rfl; simp at hc
    have hplus : ¬ (c = '+') := by rintro rfl; simp at hc
    have hall : (c :: rest).all Char.isDigit = true := by
      rw [List.all_eq_true]
      exact hd
    rw [pyIntCore, if_neg hminus, if_neg hplus, if_pos hall]
    exact ⟨_, rfl⟩

/-- The two `int` calls of the Tag Tuple Generator succeed on any version
string assembled from two nonnegative components. -/
theorem pyInt_version_parses (a b : Nat) :
    (∃ k, pyInt (String.mk ((natStr a ++ natStr b).data.take 1)) = some k)
    ∧ (∃ k, pyInt (String.mk ((natStr a ++ natStr b).data.drop 1)) = some k) := by
  have hdata : (natStr a ++ natStr b).data = natStrAux (a + 1) a ++ natStrAux (b + 1) b := by
    simp [natStr, String.data_append]
  obtain ⟨hne1, hd1⟩ := natStrAux_ne_nil_all_digits (a + 1) a (by omega)
  obtain ⟨hne2, hd2⟩ := natStrAux_ne_nil_all_digits (b + 1) b (by omega)
  obtain ⟨c, cs, hcons⟩ := List.exists_cons_of_ne_nil hne1
  rw [hdata, hcons]
  constructor
  · refine pyIntChars_of_digits _ (by simp) ?_
    intro x hx
    simp only [List.cons_append, List.take_succ_cons, List.take_zero,
      List.mem_singleton] at hx
    subst hx
    exact hd1 x (by rw [hcons]; simp)
  · refine pyIntChars_of_digits _ ?_ ?_
    · simp only [List.cons_append, List.drop_succ_cons, List.drop_zero]
      intro hx
      rw [List.append_eq_nil] at hx
      exact hne2 hx.2
    · intro x hx
      simp only [List.cons_append, List.drop_succ_cons, List.drop_zero,
        List.mem_append] at hx
      rcases hx with hx | hx
      · exact hd1 x (by rw [hcons]; simp [hx])
      · exact hd2 x hx

/-- The platform iterator fails exactly when the platform claims to be a
macOS tag but the macOS parser rejects it. -/
theorem platform_iterator_none_iff (p : String) :
    platform_iterator p = none ↔
      (is_macosx_platform p = true ∧ parse_macosx_tag p = none) := by
  unfold platform_iterator iter_compatible_osx_platforms
  by_cases hm : is_macosx_platform p
  · rw [if_pos hm]
    cases hparse : parse_macosx_tag p with
    | none => simp [hm]
    | some v =>
      obtain ⟨ma, mi, ar⟩ := v
      simp [hm, hparse]
  · rw [if_neg hm]
    simp only [Bool.not_eq_true] at hm
    simp [hm]

/-- C1: for the parsed macOS tag `(10, 6, "x86_64")`, the compatibility
expansion yields exactly `macosx_10_m_f` for `m` in `{6, 5, 4}` descending
and `f` in `x86_64, intel, fat64, fat32, universal2, universal` in that
order within each minor level, and no tags for minor levels 3 down to 0. -/
theorem claim_C1_expansion_10_6_x86_64 :
    parse_macosx_tag "macosx_10_6_x86_64" = some (10, 6, "x86_64") ∧
    iter_compatible_osx_platforms "macosx_10_6_x86_64" = some
      ["macosx_10_6_x86_64", "macosx_10_6_intel", "macosx_10_6_fat64",
       "macosx_10_6_fat32", "macosx_10_6_universal2", "macosx_10_6_universal",
       "macosx_10_5_x86_64", "macosx_10_5_intel", "macosx_10_5_fat64",
       "macosx_10_5_fat32", "macosx_10_5_universal2", "macosx_10_5_universal",
       "macosx_10_4_x86_64", "macosx_10_4_intel", "macosx_10_4_fat64",
       "macosx_10_4_fat32", "macosx_10_4_universal2", "macosx_10_4_universal"] := by
  constructor <;> decide

/-- C2: for the parsed macOS tag `(13, 2, "arm64")`, the compatibility
expansion yields `macosx_M_0_f` for `M` in `{13, 12, 11}` descending with
`f` in `arm64, universal2`, followed by `macosx_10_m_universal2` for `m`
from 16 down to 4 with the fixed format `universal2`. -/
theorem claim_C2_expansion_13_2_arm64 :
    parse_macosx_tag "macosx_13_2_arm64" = some (13, 2, "arm64") ∧
    iter_compatible_osx_platforms "macosx_13_2_arm64" = some
      ["macosx_13_0_arm64", "macosx_13_0_universal2",
       "macosx_12_0_arm64", "macosx_12_0_universal2",
       "macosx_11_0_arm64", "macosx_11_0_universal2",
       "macosx_10_16_universal2", "macosx_10_15_universal2",
       "macosx_10_14_universal2", "macosx_10_13_universal2",
       "macosx_10_12_universal2", "macosx_10_11_universal2",
       "macosx_10_10_universal2", "macosx_10_9_universal2",
       "macosx_10_8_universal2", "macosx_10_7_universal2",
       "macosx_10_6_universal2", "macosx_10_5_universal2",
       "macosx_10_4_universal2"] := by
  constructor <;> decide

/-- C3 counterexample: the claim says that for `x86_64` strictly below
`(10, 4)` the resolver still contains `universal2` and `universal`; at
`(10, 3)` the resolver in fact returns the empty list, containing neither. -/
theorem claim_C3_counterexample :
    ¬ ("universal2" ∈ _mac_binary_formats ((10 : Int), (3 : Int)) "x86_64" ∧
       "universal" ∈ _mac_binary_formats ((10 : Int), (3 : Int)) "x86_64") := by
  decide

/-- C3 amended: for arch `x86_64` with version strictly below `(10, 4)` the
resolver returns the empty list outright — the early return skips the
`universal2` / `universal` additions rather than still applying them. -/
theorem claim_C3_amended (v : Int × Int) (h : verLt v (10, 4)) :
    _mac_binary_formats v "x86_64" = [] := by
  simp [_mac_binary_formats, h]

/-- C3 witness: the amended statement evaluated at version `(10, 3)`. -/
theorem claim_C3_witness :
    verLt ((10 : Int), (3 : Int)) (10, 4) ∧
      _mac_binary_formats ((10 : Int), (3 : Int)) "x86_64" = [] :=
  ⟨by decide, claim_C3_amended ((10 : Int), (3 : Int)) (by decide)⟩

/-- Specific ABI strings are never the generic `none` marker. -/
theorem build_abis_ne_none (impl version : String) :
    ∀ a ∈ build_abis impl version, a ≠ "none" := by
  intro a ha
  have hcp : ∀ (y : String), ¬ ("cp" ++ y = "none") := by
    intro y hy
    have hdata : ("cp" ++ y).data = "none".data := by rw [hy]
    rw [String.data_append] at hdata
    have h2 : 'c' :: 'p' :: y.data = ['n', 'o', 'n', 'e'] := hdata
    simp at h2
  unfold build_abis at ha
  split at ha
  · rw [List.mem_append] at ha
    rcases ha with ha | ha
    · simp only [List.mem_cons, List.not_mem_nil, or_false] at ha
      rcases ha with rfl | rfl | rfl | rfl | rfl | rfl | rfl | rfl
      · exact hcp version
      all_goals (intro hy; rw [String.append_assoc] at hy; exact hcp _ hy)
    · split at ha
      · simp only [List.mem_singleton] at ha
        subst ha
        decide
      · simp at ha
  · simp at ha

/-- Head of the descending range `range(start, -1, -1)` is the start. -/
theorem pyRangeDown_head (m0 : Int) (h : 0 ≤ m0) :
    (pyRangeDown m0 (-1)).head? = some m0 := by
  unfold pyRangeDown
  have ht : (m0 - (-1)).toNat = m0.toNat + 1 := by omega
  rw [ht, List.range_succ_eq_map]
  simp

/-- Last element of the descending range `range(start, -1, -1)` is zero. -/
theorem pyRangeDown_getLast (m0 : Int) (h : 0 ≤ m0) :
    (pyRangeDown m0 (-1)).getLast? = some 0 := by
  unfold pyRangeDown
  have ht : (m0 - (-1)).toNat = m0.toNat + 1 := by omega
  rw [ht, List.range_succ, List.map_append]
  simp only [List.map_cons, List.map_nil, List.getLast?_concat, Option.some.injEq]
  omega

/-- The descending range `range(start, -1, -1)` steps down by one. -/
theorem pyRangeDown_chain (m0 : Int) :
    List.Chain' (fun x y => y = x - 1) (pyRangeDown m0 (-1)) := by
  rw [List.chain'_iff_get]
  intro i hlen
  unfold pyRangeDown
  simp only [List.get_eq_getElem, List.getElem_map, List.getElem_range]
  push_cast
  ring

/-- C7: ordering contract of the Tag Tuple Generator.  Every tuple with a
specific ABI precedes every tuple with ABI `none`; within each of the two
groups the expanded platform-list order is preserved (the platform column
of the specific group is the platform list with one entry per ABI, that of
the generic group is the platform list followed by `any` with one entry per
interpreter tag); and the minor-version variants descend stepwise from the
exact minor down to 0. -/
theorem claim_C7_ordering_contract (impl version platform : String) (ts : List TagTuple)
    (h : _iter_supported_tags impl version platform = some ts) :
    (∀ (i j : Nat) (hi : i < ts.length) (hj : j < ts.length), i ≤ j →
        (ts.get ⟨i, hi⟩).2.1 = "none" → (ts.get ⟨j, hj⟩).2.1 = "none")
    ∧ ∃ maj m0 platforms,
        pyInt (String.mk (version.data.take 1)) = some maj ∧
        pyInt (String.mk (version.data.drop 1)) = some m0 ∧
        platform_iterator (translate_platform_to_tag platform) = some platforms ∧
        (ts.filter (fun t => t.2.1 ≠ "none")).map (fun t => t.2.2)
          = platforms.flatMap (fun p => List.replicate (build_abis impl version).length p) ∧
        (ts.filter (fun t => t.2.1 = "none")).map (fun t => t.2.2)
          = (platforms ++ ["any"]).flatMap (fun p =>
              List.replicate (2 * (1 + (minor_version_strings maj m0).length)) p) ∧
        (0 ≤ m0 →
          (pyRangeDown m0 (-1)).head? = some m0 ∧
          (pyRangeDown m0 (-1)).getLast? = some 0 ∧
          List.Chain' (fun x y => y = x - 1) (pyRangeDown m0 (-1)) ∧
          minor_version_strings maj m0 =
            (pyRangeDown m0 (-1)).map (fun m => toString maj ++ toString m)) := by
  unfold _iter_supported_tags at h
  split at h
  · exact absurd h (by simp)
  rename_i maj hmaj
  split at h
  · exact absurd h (by simp)
  rename_i m0 hm0
  split at h
  · exact absurd h (by simp)
  rename_i platforms hp
  rw [Option.some.injEq] at h
  subst h
  have hspec_ne : ∀ t ∈ platforms.flatMap (fun p =>
      (build_abis impl version).map (fun abi => ((impl ++ version : String), abi, p))),
      t.2.1 ≠ "none" := by
    intro t ht
    rw [List.mem_flatMap] at ht
    obtain ⟨p, _, ht⟩ := ht
    rw [List.mem_map] at ht
    obtain ⟨abi, habi, rfl⟩ := ht
    exact build_abis_ne_none impl version abi habi
  have hgen_eq : ∀ t ∈ (platforms ++ ["any"]).flatMap (fun p =>
      (["py", impl]).flatMap (fun i =>
        ((i ++ toString maj : String), ("none" : String), p)
          :: (minor_version_strings maj m0).map (fun mv =>
               ((i ++ mv : String), ("none" : String), p)))),
      t.2.1 = "none" := by
    intro t ht
    rw [List.mem_flatMap] at ht
    obtain ⟨p, _, ht⟩ := ht
    rw [List.mem_flatMap] at ht
    obtain ⟨i, _, ht⟩ := ht
    rcases List.mem_cons.mp ht with rfl | ht
    · rfl
    · rw [List.mem_map] at ht
      obtain ⟨mv, _, rfl⟩ := ht
      rfl
  refine ⟨?_, maj, m0, platforms, hmaj, hm0, hp, ?_, ?_, ?_⟩
  · intro i j hi hj hij hni
    simp only [List.get_eq_getElem] at hni ⊢
    by_cases hjS : j < (platforms.flatMap (fun p =>
        (build_abis impl version).map (fun abi =>
          ((impl ++ version : String), abi, p)))).length
    · exfalso
      have hiS : i < _ := Nat.lt_of_le_of_lt hij hjS
      rw [List.getElem_append_left hiS] at hni
      exact hspec_ne _ (List.getElem_mem hiS) hni
    · push_neg at hjS
      rw [List.getElem_append_right hjS]
      exact hgen_eq _ (List.getElem_mem _)
  · rw [List.filter_append]
    have h1 : (platforms.flatMap (fun p =>
        (build_abis impl version).map (fun abi =>
          ((impl ++ version : String), abi, p)))).filter (fun t => t.2.1 ≠ "none")
        = platforms.flatMap (fun p =>
            (build_abis impl version).map (fun abi =>
              ((impl ++ version : String), abi, p))) :=
      List.filter_eq_self.mpr (fun a ha => by simpa using hspec_ne a ha)
    have h2 : ((platforms ++ ["any"]).flatMap (fun p =>
        (["py", impl]).flatMap (fun i =>
          ((i ++ toString maj : String), ("none" : String), p)
            :: (minor_version_strings maj m0).map (fun mv =>
                 ((i ++ mv : String), ("none" : String), p))))).filter
          (fun t => t.2.1 ≠ "none") = [] :=
      List.filter_eq_nil_iff.mpr (fun a ha => by simp [hgen_eq a ha])
    rw [h1, h2, List.append_nil, List.map_flatMap]
    congr 1
    funext p
    simp [List.map_map, Function.comp_def, List.map_const']
  · rw [List.filter_append]
    have h1 : (platforms.flatMap (fun p =>
        (build_abis impl version).map (fun abi =>
          ((impl ++ version : String), abi, p)))).filter (fun t => t.2.1 = "none") = [] :=
      List.filter_eq_nil_iff.mpr (fun a ha => by simpa using hspec_ne a ha)
    have h2 : ((platforms ++ ["any"]).flatMap (fun p =>
        (["py", impl]).flatMap (fun i =>
          ((i ++ toString maj : String), ("none" : String), p)
            :: (minor_version_strings maj m0).map (fun mv =>
                 ((i ++ mv : String), ("none" : String), p))))).filter
          (fun t => t.2.1 = "none")
        = (platforms ++ ["any"]).flatMap (fun p =>
            (["py", impl]).flatMap (fun i =>
              ((i ++ toString maj : String), ("none" : String), p)
                :: (minor_version_strings maj m0).map (fun mv =>
                     ((i ++ mv : String), ("none" : String), p)))) :=
      List.filter_eq_self.mpr (fun a ha => by simpa using hgen_eq a ha)
    rw [h1, h2, List.nil_append, List.map_flatMap]
    congr 1
    funext p
    rw [List.map_flatMap]
    simp only [List.flatMap_cons, List.flatMap_nil, List.map_cons, List.map_map,
      Function.comp_def, List.map_const', List.append_nil]
    simp only [← List.replicate_succ, ← List.replicate_add]
    congr 1
    omega
  · intro hm0nonneg
    exact ⟨pyRangeDown_head m0 hm0nonneg, pyRangeDown_getLast m0 hm0nonneg,
      pyRangeDown_chain m0, rfl⟩

/-- C7 witness: the ordering contract evaluated for `cp` / `26` on
`linux_x86_64`. -/
theorem claim_C7_witness :
    (∀ (i j : Nat) (hi : i < cp26_tags.length) (hj : j < cp26_tags.length), i ≤ j →
        (cp26_tags.get ⟨i, hi⟩).2.1 = "none" → (cp26_tags.get ⟨j, hj⟩).2.1 = "none")
    ∧ ∃ maj m0 platforms,
        pyInt (String.mk (("26" : String).data.take 1)) = some maj ∧
        pyInt (String.mk (("26" : String).data.drop 1)) = some m0 ∧
        platform_iterator (translate_platform_to_tag "linux_x86_64") = some platforms ∧
        (cp26_tags.filter (fun t => t.2.1 ≠ "none")).map (fun t => t.2.2)
          = platforms.flatMap (fun p => List.replicate (build_abis "cp" "26").length p) ∧
        (cp26_tags.filter (fun t => t.2.1 = "none")).map (fun t => t.2.2)
          = (platforms ++ ["any"]).flatMap (fun p =>
              List.replicate (2 * (1 + (minor_version_strings maj m0).length)) p) ∧
        (0 ≤ m0 →
          (pyRangeDown m0 (-1)).head? = some m0 ∧
          (pyRangeDown m0 (-1)).getLast? = some 0 ∧
          List.Chain' (fun x y => y = x - 1) (pyRangeDown m0 (-1)) ∧
          minor_version_strings maj m0 =
            (pyRangeDown m0 (-1)).map (fun m => toString maj ++ toString m)) :=
  claim_C7_ordering_contract "cp" "26" "linux_x86_64" cp26_tags (by rfl)

/-- C8: a platform string that does not start with `macosx` expands to
exactly the one-element sequence holding the input unchanged; the macOS
parser is not consulted (indeed it would reject the string, as the second
conjunct shows, yet the iterator still succeeds). -/
theorem claim_C8_non_macosx_passthrough (platform : String)
    (h : is_macosx_platform platform = false) :
    platform_iterator platform = some [platform] ∧
      parse_macosx_tag platform = none := by
  constructor
  · simp [platform_iterator, h]
  · simp [parse_macosx_tag, h]

/-- C8 witness: the passthrough at the concrete platform `linux_x86_64`. -/
theorem claim_C8_witness :
    platform_iterator "linux_x86_64" = some ["linux_x86_64"] ∧
      parse_macosx_tag "linux_x86_64" = none :=
  claim_C8_non_macosx_passthrough "linux_x86_64" (by decide)

/-- C9: a macOS tag that parses to a version strictly below `(10, 0)` expands
to the empty sequence: no platform candidates at all, and no error. -/
theorem claim_C9_pre_10_expands_empty (s : String) (major minor : Int) (arch : String)
    (h : parse_macosx_tag s = some (major, minor, arch))
    (hlt : verLt (major, minor) (10, 0)) :
    platform_iterator s = some [] := by
  have hmac : is_macosx_platform s = true := by
    cases hb : is_macosx_platform s with
    | true => rfl
    | false => simp [parse_macosx_tag, hb] at h
  have h1 : ¬ (verLe (10, 0) (major, minor) ∧ verLt (major, minor) (11, 0)) := by
    simp only [verLe, verLt, Prod.mk.injEq] at hlt ⊢
    omega
  have h2 : ¬ verLe ((11 : Int), (0 : Int)) (major, minor) := by
    simp only [verLe, verLt, Prod.mk.injEq] at hlt ⊢
    omega
  simp only [platform_iterator, hmac, if_true]
  simp [iter_compatible_osx_platforms, h, h1, h2]

/-- C9 witness: the empty expansion at the concrete tag `macosx_9_0_x86_64`. -/
theorem claim_C9_witness : platform_iterator "macosx_9_0_x86_64" = some [] :=
  claim_C9_pre_10_expands_empty "macosx_9_0_x86_64" 9 0 "x86_64" (by decide) (by decide)

/-- C10: the supported-tag sequence depends only on the implementation name,
the first two version components, and the platform string: identities that
agree on implementation and on `version.take 2` produce identical sequences. -/
theorem claim_C10_only_first_two_version_components
    (id1 id2 : PythonIdentity) (platform : String)
    (h1 : id1.interpreter = id2.interpreter)
    (h2 : id1.version.take 2 = id2.version.take 2) :
    iter_supported_tags id1 platform = iter_supported_tags id2 platform := by
  unfold iter_supported_tags get_version_tag
  rw [h1, h2]

/-- C10 witness: identities differing only in the third version component
yield identical tag sequences. -/
theorem claim_C10_witness :
    iter_supported_tags ⟨"CPython", [2, 6, 5]⟩ "linux-x86_64" =
      iter_supported_tags ⟨"CPython", [2, 6, 9]⟩ "linux-x86_64" :=
  claim_C10_only_first_two_version_components
    ⟨"CPython", [2, 6, 5]⟩ ⟨"CPython", [2, 6, 9]⟩ "linux-x86_64" rfl rfl

/-- C4: the macOS tag parser rejects both `macosx_10` (fewer than 3
segments) and `macosx_10_0` (integer minor but no architecture segment),
and this is the only failure of the tag-resolution core: for any identity
honoring the input contract (at least two version components), the full
tag generation fails exactly when the platform string claims to be a macOS
tag but fails parsing, and the failure propagates to the caller. -/
theorem claim_C4_invalid_tag_only_error (identity : PythonIdentity) (platform : String)
    (hlen : 2 ≤ identity.version.length) :
    parse_macosx_tag "macosx_10" = none ∧
    parse_macosx_tag "macosx_10_0" = none ∧
    (iter_supported_tags identity platform = none ↔
      (is_macosx_platform (translate_platform_to_tag platform) = true ∧
       parse_macosx_tag (translate_platform_to_tag platform) = none)) := by
  refine ⟨by decide, by decide, ?_⟩
  have hv : ∃ a b t, identity.version = a :: b :: t := by
    cases hveq : identity.version with
    | nil => rw [hveq] at hlen; simp at hlen
    | cons a v1 =>
      cases hveq2 : v1 with
      | nil => rw [hveq, hveq2] at hlen; simp at hlen
      | cons b t => exact ⟨a, b, t, by simp [hveq, hveq2]⟩
  obtain ⟨a, b, t, hv⟩ := hv
  clear hlen
  unfold iter_supported_tags
  rw [hv]
  have hgv : get_version_tag (a :: b :: t) = natStr a ++ natStr b := rfl
  rw [hgv]
  obtain ⟨⟨k1, hk1⟩, ⟨k2, hk2⟩⟩ := pyInt_version_parses a b
  unfold _iter_supported_tags
  cases hp : platform_iterator (translate_platform_to_tag platform) with
  | none =>
    simp only [hk1, hk2, hp]
    constructor
    · intro _
      exact (platform_iterator_none_iff _).mp hp
    · intro _
      trivial
  | some l =>
    simp only [hk1, hk2, hp]
    constructor
    · intro h
      exact absurd h (by simp)
    · intro hpp
      exact absurd ((platform_iterator_none_iff _).mpr hpp) (by simp [hp])

/-- C4 witness: the characterization evaluated at a CPython 2.6 identity
and the malformed platform `macosx_10`. -/
theorem claim_C4_witness :
    parse_macosx_tag "macosx_10" = none ∧
    parse_macosx_tag "macosx_10_0" = none ∧
    (iter_supported_tags ⟨"CPython", [2, 6]⟩ "macosx_10" = none ↔
      (is_macosx_platform (translate_platform_to_tag "macosx_10") = true ∧
       parse_macosx_tag (translate_platform_to_tag "macosx_10") = none)) :=
  claim_C4_invalid_tag_only_error ⟨"CPython", [2, 6]⟩ "macosx_10" (by decide)

/-- C5: for every well-formed macOS tag whose third segment is not an
integer, the parser defaults the minor to 0 and takes the remaining
segments rejoined with `_` as the architecture; in particular
`macosx_12_arm64` parses to `(12, 0, "arm64")` and `macosx_12_1_x86_64`
parses to `(12, 1, "x86_64")`. -/
theorem claim_C5_minor_fallback (s : String) (major minor : Int) (arch : String)
    (h : parse_macosx_tag s = some (major, minor, arch))
    (h2 : pyInt ((pySplit s '_' 3).getD 2 "") = none) :
    (minor = 0 ∧ arch = String.intercalate "_" ((pySplit s '_' 3).drop 2))
    ∧ parse_macosx_tag "macosx_12_arm64" = some (12, 0, "arm64")
    ∧ parse_macosx_tag "macosx_12_1_x86_64" = some (12, 1, "x86_64") := by
  refine ⟨?_, by decide, by decide⟩
  simp only [parse_macosx_tag] at h
  split at h
  · exact absurd h (by simp)
  · split at h
    · exact absurd h (by simp)
    · split at h
      · exact absurd h (by simp)
      · split at h
        · exact absurd h (by simp)
        · split at h
          · rename_i minor' heq
            rw [h2] at heq
            exact absurd heq (by simp)
          · simp only [Option.some.injEq, Prod.mk.injEq] at h
            exact ⟨h.2.1.symm, h.2.2.symm⟩

/-- C5 witness: the fallback evaluated at `macosx_12_arm64`. -/
theorem claim_C5_witness :
    ((0 : Int) = 0 ∧ "arm64" = String.intercalate "_" ((pySplit "macosx_12_arm64" '_' 3).drop 2))
    ∧ parse_macosx_tag "macosx_12_arm64" = some (12, 0, "arm64")
    ∧ parse_macosx_tag "macosx_12_1_x86_64" = some (12, 1, "x86_64") :=
  claim_C5_minor_fallback "macosx_12_arm64" 12 0 "arm64" (by decide) (by decide)

/-- C6: the ABI list is non-empty exactly when the implementation is `cp`
and the version string starts with `2` or `3`; it is then the eight `cp`
variants in source order followed by `abi3` exactly when the version starts
with `3`; every other implementation gets the empty list. -/
theorem claim_C6_abi_list (impl version : String) :
    (build_abis impl version ≠ [] ↔
      impl = "cp" ∧ (pyStartsWith version "2" = true ∨ pyStartsWith version "3" = true))
    ∧ (impl = "cp" →
        (pyStartsWith version "2" = true ∨ pyStartsWith version "3" = true) →
        build_abis impl version =
          ["cp" ++ version,
           "cp" ++ version ++ "dmu", "cp" ++ version ++ "dm", "cp" ++ version ++ "du",
           "cp" ++ version ++ "d",
           "cp" ++ version ++ "mu", "cp" ++ version ++ "m",
           "cp" ++ version ++ "u"]
          ++ (if pyStartsWith version "3" then ["abi3"] else []))
    ∧ (¬ (impl = "cp" ∧ (pyStartsWith version "2" = true ∨ pyStartsWith version "3" = true)) →
        build_abis impl version = []) := by
  by_cases hc : impl = "cp" ∧ (pyStartsWith version "2" = true ∨ pyStartsWith version "3" = true)
  · have hb : build_abis impl version =
        ["cp" ++ version,
         "cp" ++ version ++ "dmu", "cp" ++ version ++ "dm", "cp" ++ version ++ "du",
         "cp" ++ version ++ "d",
         "cp" ++ version ++ "mu", "cp" ++ version ++ "m",
         "cp" ++ version ++ "u"]
        ++ (if pyStartsWith version "3" then ["abi3"] else []) := by
      unfold build_abis
      rw [if_pos hc]
    refine ⟨⟨fun _ => hc, fun _ => ?_⟩, fun _ _ => hb, fun hn => absurd hc hn⟩
    rw [hb]
    simp
  · have hb : build_abis impl version = [] := by
      unfold build_abis
      rw [if_neg hc]
    exact ⟨⟨fun hne => absurd hb hne, fun hcc => absurd hcc hc⟩,
      fun h1 h2 => absurd ⟨h1, h2⟩ hc, fun _ => hb⟩

/-- C6 witness: the ABI list evaluated for `cp` / `26`. -/
theorem claim_C6_witness :
    (build_abis "cp" "26" ≠ [] ↔
      "cp" = "cp" ∧ (pyStartsWith "26" "2" = true ∨ pyStartsWith "26" "3" = true))
    ∧ ("cp" = "cp" →
        (pyStartsWith "26" "2" = true ∨ pyStartsWith "26" "3" = true) →
        build_abis "cp" "26" =
          ["cp" ++ "26",
           "cp" ++ "26" ++ "dmu", "cp" ++ "26" ++ "dm", "cp" ++ "26" ++ "du",
           "cp" ++ "26" ++ "d",
           "cp" ++ "26" ++ "mu", "cp" ++ "26" ++ "m",
           "cp" ++ "26" ++ "u"]
          ++ (if pyStartsWith "26" "3" then ["abi3"] else []))
    ∧ (¬ ("cp" = "cp" ∧ (pyStartsWith "26" "2" = true ∨ pyStartsWith "26" "3" = true)) →
        build_abis "cp" "26" = []) :=
  claim_C6_abi_list "cp" "26"

end PEP425Spec
